import Mathlib

/-!
Verification of the Willform A2A demo client (a2a-client.ts, agent.ts,
agent-card.ts).

The development shallowly embeds the JavaScript values manipulated by the
client as a mutual inductive `Json` type (JSON numbers are modelled as
integers; fractional numeric literals, IEEE-754 behaviour and UTF-16 lone
surrogates are outside the model).  `JSON.parse` is modelled by an executable
recursive-descent parser, `JSON.stringify` by executable printers, and the
JavaScript truthiness, property-access and `String()` coercions used by the
client are modelled explicitly.  JavaScript objects never carry duplicate
keys; `JsonFields` association sequences model them, and property lookup
takes the last binding exactly as `JSON.parse` of duplicate keys would.
-/

mutual

/-- JSON values (JavaScript values reachable in the client). Numbers are
modelled as integers. -/
inductive Json where
  | null : Json
  | bool (b : Bool) : Json
  | num (n : Int) : Json
  | str (s : String) : Json
  | arr (elems : JsonList) : Json
  | obj (fields : JsonFields) : Json
deriving Repr, DecidableEq

/-- A sequence of JSON array elements. -/
inductive JsonList where
  | nil : JsonList
  | cons (head : Json) (tail : JsonList) : JsonList
deriving Repr, DecidableEq

/-- A sequence of JSON object fields in insertion order. -/
inductive JsonFields where
  | nil : JsonFields
  | cons (key : String) (value : Json) (tail : JsonFields) : JsonFields
deriving Repr, DecidableEq

end

/-- Embed a Lean list of key-value pairs as object fields. -/
def jfields : List (String × Json) → JsonFields
  | [] => JsonFields.nil
  | (k, v) :: t => JsonFields.cons k v (jfields t)

/-- Embed a Lean list of values as array elements. -/
def jlist : List Json → JsonList
  | [] => JsonList.nil
  | v :: t => JsonList.cons v (jlist t)

/-- The left brace character, written by code point to keep string literals
free of braces. -/
def lbrace : Char := Char.ofNat 123

/-- The right brace character. -/
def rbrace : Char := Char.ofNat 125

/-- The backtick character. -/
def btick : Char := Char.ofNat 96

/-- Last-binding field lookup: models JavaScript property access on an
object built by `JSON.parse` (later duplicate keys overwrite). -/
def lookupLast : JsonFields → String → Option Json
  | JsonFields.nil, _ => none
  | JsonFields.cons k v t, key =>
    match lookupLast t key with
    | some r => some r
    | none => if k = key then some v else none

/-- JavaScript property access `v[key]`: `none` models `undefined`. Only
objects expose the fields the client reads. -/
def jsGet : Json → String → Option Json
  | .obj fields, key => lookupLast fields key
  | _, _ => none

/-- JavaScript optional chaining `o?.[key]` on a possibly-undefined value. -/
def jsOptChain (o : Option Json) (key : String) : Option Json :=
  match o with
  | none => none
  | some .null => none
  | some v => jsGet v key

/-- JavaScript truthiness of a possibly-undefined value. -/
def jsTruthy : Option Json → Bool
  | none => false
  | some .null => false
  | some (.bool b) => b
  | some (.num n) => decide (n ≠ 0)
  | some (.str s) => decide (s ≠ "")
  | some (.arr _) => true
  | some (.obj _) => true

/-- Is the value a JavaScript string (models `typeof v === "string"`)? -/
def jsIsString : Option Json → Bool
  | some (.str _) => true
  | _ => false

/-- Decimal digit character for a digit value. -/
def digitChar : Nat → Char
  | 0 => '0'
  | 1 => '1'
  | 2 => '2'
  | 3 => '3'
  | 4 => '4'
  | 5 => '5'
  | 6 => '6'
  | 7 => '7'
  | 8 => '8'
  | _ => '9'

/-- Decimal digits of a natural number, most significant first, prepended to
an accumulator; the fuel bounds the number of digits. -/
def natToCharsAux : Nat → Nat → List Char → List Char
  | 0, _, acc => acc
  | fuel + 1, n, acc =>
    if n < 10 then digitChar n :: acc
    else natToCharsAux fuel (n / 10) (digitChar (n % 10) :: acc)

/-- Decimal digits of a natural number. -/
def natToChars (n : Nat) : List Char := natToCharsAux (n + 1) n []

/-- JavaScript decimal rendering of an integer (`String(n)` and
`JSON.stringify(n)` for integral numbers). -/
def intToChars (n : Int) : List Char :=
  if n < 0 then '-' :: natToChars n.natAbs else natToChars n.toNat

mutual

/-- JavaScript `String(v)` coercion on the modelled values. -/
def jsToString : Json → String
  | .null => "null"
  | .bool true => "true"
  | .bool false => "false"
  | .num n => String.mk (intToChars n)
  | .str s => s
  | .arr xs => String.mk (jsArrJoin xs)
  | .obj _ => "[object Object]"

/-- `Array.prototype.toString`: elements joined by commas, null rendered
empty. -/
def jsArrJoin : JsonList → List Char
  | JsonList.nil => []
  | JsonList.cons Json.null JsonList.nil => []
  | JsonList.cons x JsonList.nil => (jsToString x).toList
  | JsonList.cons Json.null (JsonList.cons y xs) => ',' :: jsArrJoin (JsonList.cons y xs)
  | JsonList.cons x (JsonList.cons y xs) =>
      (jsToString x).toList ++ ',' :: jsArrJoin (JsonList.cons y xs)

end

/-- `String(o)` on a possibly-undefined value. -/
def jsToStringOpt : Option Json → String
  | none => "undefined"
  | some v => jsToString v

/-- Lower-case hexadecimal digit character for a digit value. -/
def hexChar : Nat → Char
  | 0 => '0'
  | 1 => '1'
  | 2 => '2'
  | 3 => '3'
  | 4 => '4'
  | 5 => '5'
  | 6 => '6'
  | 7 => '7'
  | 8 => '8'
  | 9 => '9'
  | 10 => 'a'
  | 11 => 'b'
  | 12 => 'c'
  | 13 => 'd'
  | 14 => 'e'
  | _ => 'f'

/-- `JSON.stringify` escaping of one string character. -/
def escapeChar (c : Char) : List Char :=
  if c = '"' then ['\\', '"']
  else if c = '\\' then ['\\', '\\']
  else if c = '\n' then ['\\', 'n']
  else if c = '\r' then ['\\', 'r']
  else if c = '\t' then ['\\', 't']
  else if c = Char.ofNat 8 then ['\\', 'b']
  else if c = Char.ofNat 12 then ['\\', 'f']
  else if c.toNat < 32 then ['\\', 'u', '0', '0', hexChar (c.toNat / 16), hexChar (c.toNat % 16)]
  else [c]

/-- `JSON.stringify` escaping of a character list. -/
def escapeList : List Char → List Char
  | [] => []
  | c :: cs => escapeChar c ++ escapeList cs

/-- `JSON.stringify` rendering of a string, quotes included. -/
def escapeString (s : String) : List Char :=
  '"' :: (escapeList s.toList ++ ['"'])

/-- The rendering of the `null` literal. -/
def charsNull : List Char := ['n', 'u', 'l', 'l']

/-- The rendering of the `true` literal. -/
def charsTrue : List Char := ['t', 'r', 'u', 'e']

/-- The rendering of the `false` literal. -/
def charsFalse : List Char := ['f', 'a', 'l', 's', 'e']

mutual

/-- Compact `JSON.stringify(v)` (no space argument), as a character list. -/
def stringifyCompact : Json → List Char
  | .null => charsNull
  | .bool true => charsTrue
  | .bool false => charsFalse
  | .num n => intToChars n
  | .str s => escapeString s
  | .arr JsonList.nil => ['[', ']']
  | .arr (JsonList.cons x xs) => '[' :: (stringifyCompact x ++ stringifyElems xs ++ [']'])
  | .obj JsonFields.nil => [lbrace, rbrace]
  | .obj (JsonFields.cons k v fs) =>
      lbrace :: (escapeString k ++ ':' :: stringifyCompact v ++ stringifyFields fs ++ [rbrace])

/-- Second and later array elements in compact rendering. -/
def stringifyElems : JsonList → List Char
  | JsonList.nil => []
  | JsonList.cons x xs => ',' :: (stringifyCompact x ++ stringifyElems xs)

/-- Second and later object fields in compact rendering. -/
def stringifyFields : JsonFields → List Char
  | JsonFields.nil => []
  | JsonFields.cons k v fs =>
      ',' :: (escapeString k ++ ':' :: stringifyCompact v ++ stringifyFields fs)

end

/-- Compact `JSON.stringify(v)` as a string. -/
def jsonStringify (v : Json) : String := String.mk (stringifyCompact v)

/-- Indentation for pretty printing: two spaces per level. -/
def indentChars (level : Nat) : List Char := List.replicate (2 * level) ' '

mutual

/-- `JSON.stringify(v, null, 2)` at a given indentation level, as a
character list. -/
def prettyVal : Nat → Json → List Char
  | _, .null => charsNull
  | _, .bool true => charsTrue
  | _, .bool false => charsFalse
  | _, .num n => intToChars n
  | _, .str s => escapeString s
  | _, .arr JsonList.nil => ['[', ']']
  | level, .arr (JsonList.cons x xs) =>
      '[' :: '\n' :: (indentChars (level + 1) ++ prettyVal (level + 1) x ++
        prettyElems (level + 1) xs ++ '\n' :: indentChars level ++ [']'])
  | _, .obj JsonFields.nil => [lbrace, rbrace]
  | level, .obj (JsonFields.cons k v fs) =>
      lbrace :: '\n' :: (indentChars (level + 1) ++ escapeString k ++ ':' :: ' ' ::
        prettyVal (level + 1) v ++ prettyFields (level + 1) fs ++
        '\n' :: indentChars level ++ [rbrace])

/-- Second and later array elements in pretty rendering. -/
def prettyElems : Nat → JsonList → List Char
  | _, JsonList.nil => []
  | level, JsonList.cons x xs =>
      ',' :: '\n' :: (indentChars level ++ prettyVal level x ++ prettyElems level xs)

/-- Second and later object fields in pretty rendering. -/
def prettyFields : Nat → JsonFields → List Char
  | _, JsonFields.nil => []
  | level, JsonFields.cons k v fs =>
      ',' :: '\n' :: (indentChars level ++ escapeString k ++ ':' :: ' ' ::
        prettyVal level v ++ prettyFields level fs)

end

/-- `JSON.stringify(v, null, 2)` as a string. -/
def jsonStringifyPretty (v : Json) : String := String.mk (prettyVal 0 v)

/-- JSON insignificant whitespace. -/
def isJsonWs (c : Char) : Bool := c = ' ' || c = '\t' || c = '\n' || c = '\r'

/-- Skip JSON insignificant whitespace. -/
def skipWs (cs : List Char) : List Char := cs.dropWhile isJsonWs

/-- Value of a hexadecimal digit character, if it is one. -/
def hexVal (c : Char) : Option Nat :=
  if '0' ≤ c ∧ c ≤ '9' then some (c.toNat - 48)
  else if 'a' ≤ c ∧ c ≤ 'f' then some (c.toNat - 87)
  else if 'A' ≤ c ∧ c ≤ 'F' then some (c.toNat - 55)
  else none

/-- Single-character JSON string escapes. -/
def unescapeChar : Char → Option Char
  | '"' => some '"'
  | '\\' => some '\\'
  | '/' => some '/'
  | 'b' => some (Char.ofNat 8)
  | 'f' => some (Char.ofNat 12)
  | 'n' => some '\n'
  | 'r' => some '\r'
  | 't' => some '\t'
  | _ => none

/-- Parse the body of a JSON string after the opening quote; returns the
decoded characters and the input after the closing quote.  Each step
consumes at least one character, so fuel exceeding the input length never
runs out. -/
def parseStrChars : Nat → List Char → Option (List Char × List Char)
  | 0, _ => none
  | fuel + 1, cs =>
    match cs with
    | [] => none
    | c :: rest =>
      if c = '"' then some ([], rest)
      else if c = '\\' then
        match rest with
        | [] => none
        | 'u' :: h1 :: h2 :: h3 :: h4 :: rest2 =>
          match hexVal h1, hexVal h2, hexVal h3, hexVal h4 with
          | some a, some b, some hc, some d =>
            (parseStrChars fuel rest2).map
              (fun r => (Char.ofNat (a * 4096 + b * 256 + hc * 16 + d) :: r.1, r.2))
          | _, _, _, _ => none
        | e :: rest2 =>
          match unescapeChar e with
          | some d => (parseStrChars fuel rest2).map (fun r => (d :: r.1, r.2))
          | none => none
      else if c.toNat < 32 then none
      else (parseStrChars fuel rest).map (fun r => (c :: r.1, r.2))

/-- Value of a list of decimal digit characters. -/
def digitsVal (ds : List Char) : Nat :=
  ds.foldl (fun acc c => acc * 10 + (c.toNat - 48)) 0

/-- Parse a JSON number (integral only: an optional minus sign and digits
with no leading zero). -/
def parseNum (cs : List Char) : Option (Json × List Char) :=
  let neg : Bool := decide (cs.head? = some '-')
  let cs1 := if neg then cs.tail else cs
  let ds := cs1.takeWhile Char.isDigit
  let rest := cs1.dropWhile Char.isDigit
  if ds = [] then none
  else if 1 < ds.length ∧ ds.head? = some '0' then none
  else
    let v : Int := Int.ofNat (digitsVal ds)
    some (.num (if neg then -v else v), rest)

mutual

/-- Recursive-descent JSON value parser with explicit fuel (models
`JSON.parse` on the integral fragment). -/
def parseVal : Nat → List Char → Option (Json × List Char)
  | 0, _ => none
  | fuel + 1, cs =>
    match skipWs cs with
    | [] => none
    | c :: rest =>
      if c = 'n' then
        match rest with
        | 'u' :: 'l' :: 'l' :: r => some (.null, r)
        | _ => none
      else if c = 't' then
        match rest with
        | 'r' :: 'u' :: 'e' :: r => some (.bool true, r)
        | _ => none
      else if c = 'f' then
        match rest with
        | 'a' :: 'l' :: 's' :: 'e' :: r => some (.bool false, r)
        | _ => none
      else if c = '"' then
        (parseStrChars (rest.length + 1) rest).map (fun r => (.str (String.mk r.1), r.2))
      else if c = '[' then
        let r := skipWs rest
        if r.head? = some ']' then some (.arr JsonList.nil, r.tail)
        else (parseElems fuel r).map (fun p => (.arr p.1, p.2))
      else if c = lbrace then
        let r := skipWs rest
        if r.head? = some rbrace then some (.obj JsonFields.nil, r.tail)
        else (parseFields fuel r).map (fun p => (.obj p.1, p.2))
      else if c = '-' ∨ c.isDigit then parseNum (c :: rest)
      else none

/-- Parse one or more comma-separated array elements up to the closing
bracket. -/
def parseElems : Nat → List Char → Option (JsonList × List Char)
  | 0, _ => none
  | fuel + 1, cs =>
    match parseVal fuel cs with
    | none => none
    | some (v, rest) =>
      match skipWs rest with
      | c2 :: rest2 =>
        if c2 = ',' then
          (parseElems fuel rest2).map (fun p => (JsonList.cons v p.1, p.2))
        else if c2 = ']' then some (JsonList.cons v JsonList.nil, rest2)
        else none
      | [] => none

/-- Parse one or more comma-separated object fields up to the closing
brace. -/
def parseFields : Nat → List Char → Option (JsonFields × List Char)
  | 0, _ => none
  | fuel + 1, cs =>
    match skipWs cs with
    | c0 :: rest =>
      if c0 = '"' then
        match parseStrChars (rest.length + 1) rest with
        | none => none
        | some (kcs, rest1) =>
          match skipWs rest1 with
          | c2 :: rest2 =>
            if c2 = ':' then
              match parseVal fuel rest2 with
              | none => none
              | some (v, rest3) =>
                match skipWs rest3 with
                | c4 :: rest4 =>
                  if c4 = ',' then
                    (parseFields fuel rest4).map
                      (fun p => (JsonFields.cons (String.mk kcs) v p.1, p.2))
                  else if c4 = rbrace then
                    some (JsonFields.cons (String.mk kcs) v JsonFields.nil, rest4)
                  else none
                | [] => none
            else none
          | [] => none
      else none
    | [] => none

end

/-- `JSON.parse` on the modelled fragment: `none` models a thrown
`SyntaxError`. -/
def Json.parse (s : String) : Option Json :=
  match parseVal (2 * s.length + 2) s.toList with
  | some (v, rest) => if skipWs rest = [] then some v else none
  | none => none

mutual

/-- Fuel sufficient for `parseVal` to parse the compact rendering of a
value. -/
def fuelNeed : Json → Nat
  | .arr xs => 1 + fuelNeedElems xs
  | .obj fs => 1 + fuelNeedFields fs
  | _ => 1

/-- Fuel sufficient for `parseElems` on rendered elements. -/
def fuelNeedElems : JsonList → Nat
  | JsonList.nil => 0
  | JsonList.cons x xs => 1 + fuelNeed x + fuelNeedElems xs

/-- Fuel sufficient for `parseFields` on rendered fields. -/
def fuelNeedFields : JsonFields → Nat
  | JsonFields.nil => 0
  | JsonFields.cons _ v fs => 1 + fuelNeed v + fuelNeedFields fs

end

/-- The input does not begin with a decimal digit (so a preceding rendered
number cannot absorb it). -/
def noDigitStart (cs : List Char) : Prop :=
  ∀ y, cs.head? = some y → y.isDigit = false

/-- One part of an artifact (a2a-client.ts lines 12 to 16). -/
structure ArtifactPart where
  kind : String
  text : String
deriving Repr, DecidableEq

/-- One artifact of a task. -/
structure Artifact where
  artifactId : String
  name : String
  parts : List ArtifactPart
deriving Repr, DecidableEq

/-- Task status. -/
structure TaskStatus where
  state : String
  timestamp : String
deriving Repr, DecidableEq

/-- One history entry of a task. -/
structure HistoryEntry where
  state : String
  timestamp : String
  message : Option String
deriving Repr, DecidableEq

/-- The optional low-balance advisory attached by the server. -/
structure LowBalanceWarning where
  balance : String
  message : String
deriving Repr, DecidableEq

/-- Task metadata. -/
structure TaskMetadata where
  lowBalanceWarning : Option LowBalanceWarning
deriving Repr, DecidableEq

/-- The A2A task shape (a2a-client.ts lines 8 to 19). -/
structure A2ATask where
  id : String
  contextId : String
  status : TaskStatus
  artifacts : List Artifact
  history : List HistoryEntry
  metadata : Option TaskMetadata
deriving Repr, DecidableEq

/-- A JSON-RPC error object. -/
structure RpcError where
  code : Int
  message : String
deriving Repr, DecidableEq

/-- A JSON-RPC response body (a2a-client.ts lines 21 to 26). -/
structure JsonRpcResponse where
  result : Option A2ATask
  error : Option RpcError
deriving Repr, DecidableEq

/-- The fixed no-response sentinel returned by `extractText`. -/
def noResponse : String := "(응답 없음)"

/-- Locate the first text-kind part of a part list
(`parts.find(p => p.kind === "text")`). -/
def findTextPart (parts : List ArtifactPart) : Option ArtifactPart :=
  parts.find? (fun p => p.kind == "text")

/-- The try-block body of `extractText` (a2a-client.ts lines 87 to 93) on an
already-parsed value.  `Except.error` models the `TypeError` thrown by
`parsed.message` when the parsed value is `null`; every other parsed value
reaches a return.  Each guard is JavaScript truthiness, exactly as in the
source. -/
def unwrapParsed (parsed : Json) : Except Unit String :=
  match parsed with
  | .str s => Except.ok s
  | .null => Except.error ()
  | _ =>
    let msg := jsGet parsed ("message")
    if jsTruthy msg then Except.ok (jsToStringOpt msg)
    else
      let d := jsGet parsed ("data")
      let reply := jsOptChain d ("reply")
      if jsTruthy reply then Except.ok (jsToStringOpt reply)
      else
        let dmsg := jsOptChain d ("message")
        if jsTruthy dmsg then Except.ok (jsToStringOpt dmsg)
        else if jsTruthy d && jsIsString d then Except.ok (jsToStringOpt d)
        else Except.ok (jsonStringifyPretty parsed)

/-- `A2AClient.extractText` (a2a-client.ts lines 82 to 97). -/
def extractText (task : A2ATask) : String :=
  match task.artifacts with
  | [] => noResponse
  | a :: _ =>
    match findTextPart a.parts with
    | none => noResponse
    | some p =>
      if p.text = "" then noResponse
      else
        match Json.parse p.text with
        | none => p.text
        | some parsed =>
          match unwrapParsed parsed with
          | Except.ok s => s
          | Except.error _ => p.text

/-- `A2AClient.extractData` (a2a-client.ts lines 138 to 147).  The JavaScript
return value `null` is `Json.null`, a parse failure falls back to the raw
text as a string. -/
def extractData (task : A2ATask) : Json :=
  match task.artifacts with
  | [] => Json.null
  | a :: _ =>
    match findTextPart a.parts with
    | none => Json.null
    | some p =>
      if p.text = "" then Json.null
      else
        match Json.parse p.text with
        | some v => v
        | none => Json.str p.text

/-- The message thrown for a JSON-RPC error object
(`A2A error [code]: message`). -/
def a2aErrorMessage (e : RpcError) : String :=
  "A2A error [" ++ String.mk (intToChars e.code) ++ "]: " ++ e.message

/-- Response handling of `A2AClient.sendText` (a2a-client.ts lines 72 to 79):
a JSON-RPC `error` is thrown first, then a missing `result` is thrown, else
the task is returned. -/
def sendTextHandle (resp : JsonRpcResponse) : Except String A2ATask :=
  match resp.error with
  | some e => Except.error (a2aErrorMessage e)
  | none =>
    match resp.result with
    | none => Except.error ("Empty response from A2A endpoint")
    | some t => Except.ok t

/-- Response handling of `A2AClient.send` (a2a-client.ts lines 110 to 117),
identical to `sendText`. -/
def sendHandle (resp : JsonRpcResponse) : Except String A2ATask :=
  match resp.error with
  | some e => Except.error (a2aErrorMessage e)
  | none =>
    match resp.result with
    | none => Except.error ("Empty response from A2A endpoint")
    | some t => Except.ok t

/-- Response handling of `A2AClient.getTask` (a2a-client.ts lines 120 to
127): a JSON-RPC `error` is thrown, otherwise `response.result!` is returned
as-is — the TypeScript non-null assertion performs no runtime check, so an
absent result is passed through as `none` (JavaScript `undefined`). -/
def getTaskHandle (resp : JsonRpcResponse) : Except String (Option A2ATask) :=
  match resp.error with
  | some e => Except.error (a2aErrorMessage e)
  | none => Except.ok resp.result

/-- Response handling of `A2AClient.cancelTask` (a2a-client.ts lines 129 to
136), identical to `getTask`. -/
def cancelTaskHandle (resp : JsonRpcResponse) : Except String (Option A2ATask) :=
  match resp.error with
  | some e => Except.error (a2aErrorMessage e)
  | none => Except.ok resp.result

/-- The message text submitted by `A2AClient.send` (a2a-client.ts line 103):
`JSON.stringify({ operation, params })`. -/
def sendMessageText (operation : String) (params : JsonFields) : String :=
  jsonStringify (Json.obj (JsonFields.cons ("operation") (Json.str operation)
    (JsonFields.cons ("params") (Json.obj params) JsonFields.nil)))

/-- The `message/send` RPC params built by `A2AClient.send` (a2a-client.ts
lines 100 to 106). -/
def sendRpcParams (operation : String) (params : JsonFields)
    (contextId : Option String) : Json :=
  let msg := Json.obj (JsonFields.cons ("role") (Json.str "user")
    (JsonFields.cons ("parts") (Json.arr (JsonList.cons
      (Json.obj (JsonFields.cons ("kind") (Json.str "text")
        (JsonFields.cons ("text") (Json.str (sendMessageText operation params))
          JsonFields.nil))) JsonList.nil)) JsonFields.nil))
  Json.obj (match contextId with
    | some c =>
      JsonFields.cons ("message") msg
        (JsonFields.cons ("contextId") (Json.str c) JsonFields.nil)
    | none => JsonFields.cons ("message") msg JsonFields.nil)

/-- The input of an `a2a_call` tool-use block as destructured by `runTurn`
(agent.ts lines 837 to 843); `reflection`, `reason` and `params` may be
absent. -/
structure ToolInput where
  reflection : Option String
  narration : String
  reason : Option String
  operation : String
  params : Option JsonFields
deriving Repr

/-- One content block of an inference response. -/
inductive Block where
  | text (s : String)
  | toolUse (id : String) (name : String) (input : ToolInput)
deriving Repr

/-- One inference response: a stop reason and content blocks. -/
structure InferResponse where
  stop_reason : String
  content : List Block
deriving Repr

/-- One conversation turn kept in `messages`. -/
inductive Msg where
  | user (s : String)
  | assistant (content : List Block)
  | toolResults (results : List (String × String))
deriving Repr

/-- The protocol-dispatch oracle: `a2aClient.send(operation, params)`, where
`Except.error` carries the message of a thrown error (transport failure,
non-2xx HTTP, JSON-RPC error, empty result or timeout alike). -/
def Dispatch : Type := String → JsonFields → Except String A2ATask

/-- The optional `warning` field `executeCall` appends to the success payload
when the task carries a low-balance advisory (agent.ts lines 762 to 770). -/
def warnFields (task : A2ATask) : JsonFields :=
  match task.metadata with
  | some m =>
    match m.lowBalanceWarning with
    | some w => JsonFields.cons ("warning") (Json.str w.message) JsonFields.nil
    | none => JsonFields.nil
  | none => JsonFields.nil

/-- The tool-result content produced by `executeCall` (agent.ts lines 738 to
795) stripped of its rendering side effects: on success
`JSON.stringify({status, data, warning?}, null, 2)`, on a thrown error
`JSON.stringify({error: message})`. -/
def executeCallResult (dispatch : Dispatch) (operation : String)
    (params : JsonFields) : String :=
  match dispatch operation params with
  | Except.ok task =>
    jsonStringifyPretty (Json.obj (JsonFields.cons ("status")
      (Json.str task.status.state) (JsonFields.cons ("data") (extractData task)
        (warnFields task))))
  | Except.error e =>
    jsonStringify (Json.obj (JsonFields.cons ("error") (Json.str e) JsonFields.nil))

/-- The tool-result list built by the block loop of `runTurn` (agent.ts lines
825 to 851): a `declare_plan` block is acknowledged without any dispatch, an
`a2a_call` block is dispatched through `executeCall`, text and unknown
blocks produce no result. -/
def processBlocks (dispatch : Dispatch) : List Block → List (String × String)
  | [] => []
  | Block.text _ :: bs => processBlocks dispatch bs
  | Block.toolUse id name input :: bs =>
    if name = "declare_plan" then
      (id, "Plan acknowledged. Proceed with execution.") :: processBlocks dispatch bs
    else if name = "a2a_call" then
      (id, executeCallResult dispatch input.operation (input.params.getD JsonFields.nil)) ::
        processBlocks dispatch bs
    else processBlocks dispatch bs

/-- Number of `a2a_call` blocks in a content list; each one performs exactly
one protocol-client call. -/
def countA2A (blocks : List Block) : Nat :=
  (blocks.filter (fun b => match b with
    | Block.toolUse _ name _ => name = "a2a_call"
    | _ => false)).length

/-- The `while (true)` loop of `runTurn` (agent.ts lines 797 to 855), driven
by a script of inference responses consumed in order.  Returns the final
message list together with the number of inference calls and the number of
protocol-client calls made; `none` means the script was exhausted before the
provider signalled `end_turn`. -/
def runTurn (dispatch : Dispatch) :
    List InferResponse → List Msg → Option (List Msg × Nat × Nat)
  | [], _ => none
  | r :: rest, messages =>
    let messages1 := messages ++ [Msg.assistant r.content]
    if r.stop_reason = "end_turn" then some (messages1, 1, 0)
    else if r.stop_reason = "tool_use" then
      match runTurn dispatch rest
          (messages1 ++ [Msg.toolResults (processBlocks dispatch r.content)]) with
      | some (m, inf, calls) => some (m, inf + 1, calls + countA2A r.content)
      | none => none
    else
      match runTurn dispatch rest messages1 with
      | some (m, inf, calls) => some (m, inf + 1, calls)
      | none => none

/-- An operation descriptor (agent-card.ts lines 16 to 20). -/
structure OperationInfo where
  operation : String
  params : String
  description : String
deriving Repr, DecidableEq

/-- JavaScript `\s` on the ASCII range (space, tab, line feed, carriage
return, form feed, vertical tab). -/
def jsSpace (c : Char) : Bool :=
  c = ' ' || c = '\t' || c = '\n' || c = '\r' || c = Char.ofNat 12 || c = Char.ofNat 11

/-- `String.prototype.trim` on a character list. -/
def trimChars (cs : List Char) : List Char :=
  ((cs.dropWhile jsSpace).reverse.dropWhile jsSpace).reverse

/-- `String.prototype.trim`. -/
def jsTrim (s : String) : String := String.mk (trimChars s.toList)

/-- Trim a character list into a string. -/
def jsTrimL (cs : List Char) : String := String.mk (trimChars cs)

/-- `String.prototype.includes` (substring test). -/
def hasSubstr : List Char → List Char → Bool
  | [], sub => sub.isEmpty
  | c :: t, sub => List.isPrefixOf sub (c :: t) || hasSubstr t sub

/-- `String.prototype.split` with a single-character separator. -/
def splitOnChar (sep : Char) : List Char → List (List Char)
  | [] => [[]]
  | c :: rest =>
    match splitOnChar sep rest with
    | [] => [[c]]
    | g :: gs => if c = sep then [] :: g :: gs else (c :: g) :: gs

/-- `String.prototype.split` with a single-character separator, on
strings. -/
def splitOnCharStr (sep : Char) (s : String) : List String :=
  (splitOnChar sep s.toList).map String.mk

/-- `replace(/BACKTICK/g, "")`: a single-character global replacement by the
empty string removes every occurrence. -/
def removeBackticks (s : String) : String :=
  String.mk (s.toList.filter (fun c => c ≠ btick))

/-- A character of `[a-z_]`. -/
def isOpNameChar (c : Char) : Bool := ('a' ≤ c && c ≤ 'z') || c = '_'

/-- `/^[a-z][a-z_]*$/.test s` (agent.ts line 563). -/
def validOpName (s : String) : Bool :=
  match s.toList with
  | [] => false
  | c :: rest => ('a' ≤ c && c ≤ 'z') && rest.all (fun d => ('a' ≤ d && d ≤ 'z') || d = '_')

/-- Attempt the format-1 regex of `fetchOperations` (agent-card.ts line 82)
anchored at the start of the input: a pipe, optional spaces, a backticked
non-empty cell, optional spaces, then two further non-empty pipe-delimited
cells.  The greedy character classes cannot cross their terminators, so the
regex is equivalent to this deterministic scan; groups are returned
trimmed as the source trims each match. -/
def attempt1 (cs : List Char) : Option (String × String × String) :=
  match cs with
  | '|' :: r1 =>
    match r1.dropWhile jsSpace with
    | c :: r3 =>
      if c = btick then
        let g1 := r3.takeWhile (fun d => d ≠ btick)
        match r3.dropWhile (fun d => d ≠ btick) with
        | _ :: r5 =>
          if g1 = [] then none
          else
            match r5.dropWhile jsSpace with
            | '|' :: r7 =>
              let g2 := r7.takeWhile (fun d => d ≠ '|')
              match r7.dropWhile (fun d => d ≠ '|') with
              | '|' :: r9 =>
                if g2 = [] then none
                else
                  let g3 := r9.takeWhile (fun d => d ≠ '|')
                  match r9.dropWhile (fun d => d ≠ '|') with
                  | '|' :: _ =>
                    if g3 = [] then none
                    else some (jsTrimL g1, jsTrimL g2, jsTrimL g3)
                  | _ => none
              | _ => none
            | _ => none
        | [] => none
      else none
    | [] => none
  | _ => none

/-- The bold alternative of the format-2 regex: consume a `[^*]+` span
wrapped in double asterisks, returning the remaining input. -/
def boldPart (cs : List Char) : Option (List Char) :=
  match cs with
  | '*' :: '*' :: r =>
    let content := r.takeWhile (fun d => d ≠ '*')
    if content = [] then none
    else
      match r.dropWhile (fun d => d ≠ '*') with
      | '*' :: '*' :: r2 => some r2
      | _ => none
  | _ => none

/-- The tail of the format-2 regex of `fetchOperations` (agent-card.ts line
93): optional spaces, a pipe, an `[a-z_]+` cell, a pipe, and a non-empty
cell followed by a closing pipe. -/
def tail2 (cs : List Char) : Option (String × String) :=
  match cs.dropWhile jsSpace with
  | '|' :: r2 =>
    let r3 := r2.dropWhile jsSpace
    let g1 := r3.takeWhile isOpNameChar
    if g1 = [] then none
    else
      match (r3.dropWhile isOpNameChar).dropWhile jsSpace with
      | '|' :: r6 =>
        let g2 := r6.takeWhile (fun d => d ≠ '|')
        match r6.dropWhile (fun d => d ≠ '|') with
        | '|' :: _ => if g2 = [] then none else some (String.mk g1, jsTrimL g2)
        | _ => none
      | _ => none
  | _ => none

/-- Attempt the format-2 regex anchored at the start of the input.  The
backtracking alternation first tries the bold branch through the rest of the
pattern, then the empty branch. -/
def attempt2 (cs : List Char) : Option (String × String) :=
  match cs with
  | '|' :: r1 =>
    let r2 := r1.dropWhile jsSpace
    match boldPart r2 with
    | some r3 =>
      match tail2 r3 with
      | some g => some g
      | none => tail2 r2
    | none => tail2 r2
  | _ => none

/-- `line.match` scanning for the format-1 regex: try every start index. -/
def findFormat1 : List Char → Option (String × String × String)
  | [] => none
  | c :: cs =>
    match attempt1 (c :: cs) with
    | some r => some r
    | none => findFormat1 cs

/-- `line.match` scanning for the format-2 regex. -/
def findFormat2 : List Char → Option (String × String)
  | [] => none
  | c :: cs =>
    match attempt2 (c :: cs) with
    | some r => some r
    | none => findFormat2 cs

/-- The per-line parsing loop of `fetchOperations` (agent-card.ts lines 74 to
101). -/
def opsLoop : List String → List OperationInfo
  | [] => []
  | line :: ls =>
    let cs := line.toList
    if hasSubstr cs ("---".toList) || hasSubstr cs ("**Operation**".toList)
        || hasSubstr cs ("**Category**".toList) then opsLoop ls
    else
      match findFormat1 cs with
      | some g => { operation := g.1, params := g.2.1, description := g.2.2 } :: opsLoop ls
      | none =>
        match findFormat2 cs with
        | some g =>
          if g.1 ≠ "" then
            { operation := g.1, params := g.2, description := "" } :: opsLoop ls
          else opsLoop ls
        | none => opsLoop ls

/-- The operation-descriptor list produced by `fetchOperations` from a reply
text (agent-card.ts lines 74 to 103). -/
def parseOperationsReply (reply : String) : List OperationInfo :=
  opsLoop (splitOnCharStr '\n' reply)

/-- The per-line parsing loop of `fetchOperationsWithDisplay` (agent.ts lines
546 to 570): split on pipes, trim, drop empty cells, strip backticks, and
keep the row only when the operation matches `^[a-z][a-z_]*$`. -/
def displayOpsLoop : List String → List OperationInfo
  | [] => []
  | line :: ls =>
    let cs := line.toList
    if hasSubstr cs ("---".toList) || hasSubstr cs ("Operation".toList)
        || hasSubstr cs ("**".toList) then displayOpsLoop ls
    else if ¬ hasSubstr cs (['|']) then displayOpsLoop ls
    else
      let cells := ((splitOnCharStr '|' line).map jsTrim).filter (fun c => 0 < c.length)
      match cells with
      | c0 :: c1 :: restc =>
        let operation := removeBackticks c0
        let params0 := removeBackticks c1
        let description := match restc with | d :: _ => d | [] => ""
        if validOpName operation then
          { operation := operation,
            params := if params0 = String.mk [lbrace, rbrace] || params0 = "-" then "" else params0,
            description := description } :: displayOpsLoop ls
        else displayOpsLoop ls
      | _ => displayOpsLoop ls

/-- The operation-descriptor list produced by the discovery parser of
`fetchOperationsWithDisplay` from a reply text. -/
def parseOpsDisplay (reply : String) : List OperationInfo :=
  displayOpsLoop (splitOnCharStr '\n' reply)

/-- The `extractText` unwrap priority read literally from the specification
sentence: the mere presence of a field (a defined property) selects each
branch, with no truthiness guard.  Written from the spec's words, to be
compared with `extractText` as translated from the source. -/
def specUnwrap (parsed : Json) : String :=
  match parsed with
  | Json.str s => s
  | _ =>
    match jsGet parsed ("message") with
    | some m => jsToString m
    | none =>
      match jsOptChain (jsGet parsed ("data")) ("reply") with
      | some r => jsToString r
      | none =>
        match jsOptChain (jsGet parsed ("data")) ("message") with
        | some m2 => jsToString m2
        | none =>
          match jsGet parsed ("data") with
          | some (Json.str s) => s
          | _ => jsonStringifyPretty parsed

/-- The `extractText` unwrap priority with every branch guarded by JavaScript
truthiness of the candidate value, and `none` on a parsed `null` (whose
property access throws): the amended reading of the specification. -/
def specUnwrapTruthy (parsed : Json) : Option String :=
  match parsed with
  | Json.str s => some s
  | Json.null => none
  | _ =>
    if jsTruthy (jsGet parsed ("message")) then
      some (jsToStringOpt (jsGet parsed ("message")))
    else if jsTruthy (jsOptChain (jsGet parsed ("data")) ("reply")) then
      some (jsToStringOpt (jsOptChain (jsGet parsed ("data")) ("reply")))
    else if jsTruthy (jsOptChain (jsGet parsed ("data")) ("message")) then
      some (jsToStringOpt (jsOptChain (jsGet parsed ("data")) ("message")))
    else if jsTruthy (jsGet parsed ("data")) && jsIsString (jsGet parsed ("data")) then
      some (jsToStringOpt (jsGet parsed ("data")))
    else some (jsonStringifyPretty parsed)

/-- A task whose single artifact carries a single text part: the shape a
responding agent's completed task takes in the demo. -/
def textTask (text : String) : A2ATask :=
  A2ATask.mk ("task-1") ("ctx-1") (TaskStatus.mk ("completed") ("t0"))
    [Artifact.mk ("art-1") ("result") [ArtifactPart.mk ("text") text]]
    [] none

/-- A completed task carrying a low-balance advisory in its metadata. -/
def warnTask : A2ATask :=
  A2ATask.mk ("task-2") ("ctx-2") (TaskStatus.mk ("completed") ("t1"))
    [Artifact.mk ("art-2") ("result") [ArtifactPart.mk ("text") ("\"ok\"")]]
    []
    (some (TaskMetadata.mk (some (LowBalanceWarning.mk ("12") ("balance low")))))

/-- A dispatch oracle whose every call fails, as a transport error surfaces. -/
def failDispatch : Dispatch := fun _ _ => Except.error ("A2A request failed: HTTP 500")

/-- A dispatch oracle whose every call succeeds with `warnTask`. -/
def warnDispatch : Dispatch := fun _ _ => Except.ok warnTask

/-- A concrete `a2a_call` tool input. -/
def callInput : ToolInput :=
  ToolInput.mk none ("calling the registry") none ("ns_list") (some JsonFields.nil)

theorem stringMk_toList (s : String) : String.mk s.toList = s := by
  cases s
  rfl

theorem toList_stringMk (cs : List Char) : (String.mk cs).toList = cs := rfl

theorem length_stringMk (cs : List Char) : (String.mk cs).length = cs.length := rfl

theorem skipWs_nil : skipWs [] = [] := rfl

theorem skipWs_cons (c : Char) (cs : List Char) (h : isJsonWs c = false) :
    skipWs (c :: cs) = c :: cs := by
  simp [skipWs, List.dropWhile_cons, h]

theorem isDigit_ne (c x : Char) (h : c.isDigit = true) (hx : x.isDigit = false) : c ≠ x := by
  intro he
  subst he
  rw [h] at hx
  cases hx

theorem isJsonWs_false_of_digit (c : Char) (h : c.isDigit = true) : isJsonWs c = false := by
  have h1 : c ≠ ' ' := isDigit_ne c ' ' h (by decide)
  have h2 : c ≠ '\t' := isDigit_ne c '\t' h (by decide)
  have h3 : c ≠ '\n' := isDigit_ne c '\n' h (by decide)
  have h4 : c ≠ '\r' := isDigit_ne c '\r' h (by decide)
  simp [isJsonWs, h1, h2, h3, h4]

theorem digitChar_facts (d : Nat) (hd : d < 10) :
    (digitChar d).isDigit = true ∧ (digitChar d).toNat - 48 = d ∧
      (digitChar d = '0' ↔ d = 0) := by
  interval_cases d <;> refine ⟨by decide, by decide, by decide⟩

theorem natToCharsAux_spec (m : Nat) :
    ∀ fuel acc, m < 10 ^ fuel → 1 ≤ fuel → natToCharsAux fuel m acc = natToChars m ++ acc := by
  induction m using Nat.strong_induction_on with
  | _ m ih =>
    intro fuel acc hpow hfuel
    obtain ⟨f, rfl⟩ : ∃ f, fuel = f + 1 := ⟨fuel - 1, by omega⟩
    by_cases h : m < 10
    · rw [natToCharsAux, if_pos h, natToChars, natToCharsAux, if_pos h]
      rfl
    · have hdiv : m / 10 < m := Nat.div_lt_self (by omega) (by omega)
      have hf1 : 1 ≤ f := by
        by_contra hf0
        have : f = 0 := by omega
        subst this
        simp at hpow
        omega
      have hmf : m / 10 < 10 ^ f := by
        rw [pow_succ] at hpow
        exact Nat.div_lt_of_lt_mul (by omega)
      have hm : m < 10 ^ m := Nat.lt_pow_self (by omega) m
      have hm1 : 1 ≤ m := by omega
      rw [natToCharsAux, if_neg h, ih (m / 10) hdiv f (digitChar (m % 10) :: acc) hmf hf1]
      conv_rhs =>
        rw [natToChars, natToCharsAux, if_neg h,
          ih (m / 10) hdiv m (digitChar (m % 10) :: []) (by omega) hm1]
      simp

theorem natToChars_small (m : Nat) (h : m < 10) : natToChars m = [digitChar m] := by
  rw [natToChars, natToCharsAux, if_pos h]

theorem natToChars_step (m : Nat) (h : ¬ m < 10) :
    natToChars m = natToChars (m / 10) ++ [digitChar (m % 10)] := by
  have hdiv : m / 10 < m := Nat.div_lt_self (by omega) (by omega)
  have hm : m < 10 ^ m := Nat.lt_pow_self (by omega) m
  conv_lhs => rw [natToChars, natToCharsAux, if_neg h]
  exact natToCharsAux_spec (m / 10) m (digitChar (m % 10) :: []) (by omega) (by omega)

theorem natToChars_cons (n : Nat) :
    ∃ d t, natToChars n = digitChar d :: t ∧ d < 10 ∧ (1 ≤ n → d ≠ 0) := by
  induction n using Nat.strong_induction_on with
  | _ n ih =>
    by_cases h : n < 10
    · exact ⟨n, [], natToChars_small n h, h, fun hn => by omega⟩
    · have hlt : n / 10 < n := Nat.div_lt_self (by omega) (by omega)
      obtain ⟨d, t, ht, hd, hdne⟩ := ih (n / 10) hlt
      refine ⟨d, t ++ [digitChar (n % 10)], ?_, hd, fun _ => hdne (by omega)⟩
      rw [natToChars_step n h, ht]
      simp

theorem natToChars_digits (n : Nat) : ∀ c ∈ natToChars n, c.isDigit = true := by
  induction n using Nat.strong_induction_on with
  | _ n ih =>
    by_cases h : n < 10
    · rw [natToChars_small n h]
      intro c hc
      rw [List.mem_singleton] at hc
      subst hc
      exact (digitChar_facts n h).1
    · have hlt : n / 10 < n := Nat.div_lt_self (by omega) (by omega)
      rw [natToChars_step n h]
      intro c hc
      rw [List.mem_append] at hc
      rcases hc with hc | hc
      · exact ih (n / 10) hlt c hc
      · rw [List.mem_singleton] at hc
        subst hc
        exact (digitChar_facts (n % 10) (by omega)).1

theorem digitsVal_append_one (xs : List Char) (c : Char) :
    digitsVal (xs ++ [c]) = digitsVal xs * 10 + (c.toNat - 48) := by
  simp [digitsVal, List.foldl_append]

theorem digitsVal_natToChars (n : Nat) : digitsVal (natToChars n) = n := by
  induction n using Nat.strong_induction_on with
  | _ n ih =>
    by_cases h : n < 10
    · rw [natToChars_small n h]
      have := (digitChar_facts n h).2.1
      simp [digitsVal]
      omega
    · have hlt : n / 10 < n := Nat.div_lt_self (by omega) (by omega)
      rw [natToChars_step n h, digitsVal_append_one, ih (n / 10) hlt]
      have := (digitChar_facts (n % 10) (by omega)).2.1
      omega

theorem takeWhile_dropWhile_append (p : Char → Bool) (xs ys : List Char)
    (hx : ∀ x ∈ xs, p x = true) (hy : ∀ y, ys.head? = some y → p y = false) :
    (xs ++ ys).takeWhile p = xs ∧ (xs ++ ys).dropWhile p = ys := by
  induction xs with
  | nil =>
    simp only [List.nil_append]
    cases ys with
    | nil => exact ⟨rfl, rfl⟩
    | cons y t =>
      have := hy y rfl
      simp [List.takeWhile_cons, List.dropWhile_cons, this]
  | cons x xs ih =>
    have hpx : p x = true := hx x (List.mem_cons_self x xs)
    have := ih (fun a ha => hx a (List.mem_cons_of_mem x ha))
    simp [List.takeWhile_cons, List.dropWhile_cons, hpx, this.1, this.2]

theorem digitChar_ne (d : Nat) (hd : d < 10) :
    digitChar d ≠ '-' ∧ isJsonWs (digitChar d) = false ∧ digitChar d ≠ ']' ∧
      digitChar d ≠ rbrace := by
  interval_cases d <;> exact ⟨by decide, by decide, by decide, by decide⟩

theorem parseNum_pieces (m : Nat) (rest : List Char) (hrest : noDigitStart rest) :
    (natToChars m ++ rest).takeWhile Char.isDigit = natToChars m ∧
      (natToChars m ++ rest).dropWhile Char.isDigit = rest ∧
      natToChars m ≠ [] ∧
      ¬(1 < (natToChars m).length ∧ (natToChars m).head? = some '0') ∧
      digitsVal (natToChars m) = m := by
  have hdigits := natToChars_digits m
  have hsplit := takeWhile_dropWhile_append Char.isDigit (natToChars m) rest hdigits hrest
  obtain ⟨d, t, ht, hd, hdz⟩ := natToChars_cons m
  refine ⟨hsplit.1, hsplit.2, by rw [ht]; exact List.cons_ne_nil _ _, ?_, digitsVal_natToChars m⟩
  rintro ⟨hlen, hhead⟩
  by_cases hm : m < 10
  · rw [natToChars_small m hm] at hlen
    simp at hlen
  · have hdne : d ≠ 0 := hdz (by omega)
    rw [ht] at hhead
    simp at hhead
    exact hdne (((digitChar_facts d hd).2.2).mp hhead)

theorem parseNum_spec_nat (m : Nat) (rest : List Char) (hrest : noDigitStart rest) :
    parseNum (natToChars m ++ rest) = some (Json.num (Int.ofNat m), rest) := by
  obtain ⟨htw, hdw, hne, hlz, hval⟩ := parseNum_pieces m rest hrest
  obtain ⟨d, t, ht, hd, hdz⟩ := natToChars_cons m
  have hhead : (natToChars m ++ rest).head? = some (digitChar d) := by
    rw [ht]
    rfl
  have hneg : decide ((natToChars m ++ rest).head? = some '-') = false := by
    apply decide_eq_false
    rw [hhead]
    simp
    exact (digitChar_ne d hd).1
  rw [parseNum]
  simp only [hneg, Bool.false_eq_true, if_false, htw, hdw, hval]
  rw [if_neg hne, if_neg hlz]

theorem parseNum_spec_int (n : Int) (rest : List Char) (hrest : noDigitStart rest) :
    parseNum (intToChars n ++ rest) = some (Json.num n, rest) := by
  by_cases hn : n < 0
  · rw [intToChars, if_pos hn]
    obtain ⟨htw, hdw, hne, hlz, hval⟩ := parseNum_pieces n.natAbs rest hrest
    have hneg : decide ((('-' :: (natToChars n.natAbs ++ rest)).head? = some '-')) = true := by
      simp
    rw [List.cons_append, parseNum]
    simp only [hneg, if_true, List.tail_cons, htw, hdw, hval]
    rw [if_neg hne, if_neg hlz]
    have : -(Int.ofNat n.natAbs) = n := by
      rw [Int.ofNat_eq_natCast]
      omega
    rw [this]
  · rw [intToChars, if_neg hn, parseNum_spec_nat n.toNat rest hrest]
    have : Int.ofNat n.toNat = n := by
      rw [Int.ofNat_eq_natCast]
      omega
    rw [this]

theorem hexVal_hexChar (m : Nat) (hm : m < 16) : hexVal (hexChar m) = some m := by
  interval_cases m <;> decide

theorem escapeChar_length_pos (c : Char) : 1 ≤ (escapeChar c).length := by
  rw [escapeChar]
  repeat' split
  all_goals simp

theorem escapeList_length_ge (cs : List Char) : cs.length ≤ (escapeList cs).length := by
  induction cs with
  | nil => simp [escapeList]
  | cons c cs ih =>
    rw [escapeList]
    have := escapeChar_length_pos c
    simp only [List.length_append, List.length_cons]
    omega

theorem parseStrChars_escape (cs : List Char) :
    ∀ fuel rest, cs.length < fuel →
      parseStrChars fuel (escapeList cs ++ ('"' :: rest)) = some (cs, rest) := by
  induction cs with
  | nil =>
    intro fuel rest hf
    obtain ⟨f, rfl⟩ : ∃ f, fuel = f + 1 := ⟨fuel - 1, by omega⟩
    rfl
  | cons c cs ih =>
    intro fuel rest hf
    obtain ⟨f, rfl⟩ : ∃ f, fuel = f + 1 := ⟨fuel - 1, by omega⟩
    have hrec := ih f rest (by simp at hf; omega)
    rw [escapeList, List.append_assoc]
    by_cases h1 : c = '"'
    · subst h1
      rw [show escapeChar '"' = ['\\', '"'] from rfl]
      simp only [List.cons_append, List.nil_append]
      rw [show ∀ tail, parseStrChars (f + 1) ('\\' :: '"' :: tail) =
        (parseStrChars f tail).map (fun r => ('"' :: r.1, r.2)) from fun _ => rfl, hrec]
      rfl
    · by_cases h2 : c = '\\'
      · subst h2
        rw [show escapeChar '\\' = ['\\', '\\'] from rfl]
        simp only [List.cons_append, List.nil_append]
        rw [show ∀ tail, parseStrChars (f + 1) ('\\' :: '\\' :: tail) =
          (parseStrChars f tail).map (fun r => ('\\' :: r.1, r.2)) from fun _ => rfl, hrec]
        rfl
      · by_cases h3 : c = '\n'
        · subst h3
          rw [show escapeChar '\n' = ['\\', 'n'] from rfl]
          simp only [List.cons_append, List.nil_append]
          rw [show ∀ tail, parseStrChars (f + 1) ('\\' :: 'n' :: tail) =
            (parseStrChars f tail).map (fun r => ('\n' :: r.1, r.2)) from fun _ => rfl, hrec]
          rfl
        · by_cases h4 : c = '\r'
          · subst h4
            rw [show escapeChar '\r' = ['\\', 'r'] from rfl]
            simp only [List.cons_append, List.nil_append]
            rw [show ∀ tail, parseStrChars (f + 1) ('\\' :: 'r' :: tail) =
              (parseStrChars f tail).map (fun r => ('\r' :: r.1, r.2)) from fun _ => rfl, hrec]
            rfl
          · by_cases h5 : c = '\t'
            · subst h5
              rw [show escapeChar '\t' = ['\\', 't'] from rfl]
              simp only [List.cons_append, List.nil_append]
              rw [show ∀ tail, parseStrChars (f + 1) ('\\' :: 't' :: tail) =
                (parseStrChars f tail).map (fun r => ('\t' :: r.1, r.2)) from fun _ => rfl, hrec]
              rfl
            · by_cases h6 : c = Char.ofNat 8
              · subst h6
                rw [show escapeChar (Char.ofNat 8) = ['\\', 'b'] from rfl]
                simp only [List.cons_append, List.nil_append]
                rw [show ∀ tail, parseStrChars (f + 1) ('\\' :: 'b' :: tail) =
                  (parseStrChars f tail).map (fun r => (Char.ofNat 8 :: r.1, r.2)) from
                  fun _ => rfl, hrec]
                rfl
              · by_cases h7 : c = Char.ofNat 12
                · subst h7
                  rw [show escapeChar (Char.ofNat 12) = ['\\', 'f'] from rfl]
                  simp only [List.cons_append, List.nil_append]
                  rw [show ∀ tail, parseStrChars (f + 1) ('\\' :: 'f' :: tail) =
                    (parseStrChars f tail).map (fun r => (Char.ofNat 12 :: r.1, r.2)) from
                    fun _ => rfl, hrec]
                  rfl
                · by_cases h8 : c.toNat < 32
                  · rw [escapeChar, if_neg h1, if_neg h2, if_neg h3, if_neg h4, if_neg h5,
                      if_neg h6, if_neg h7, if_pos h8]
                    have hdiv : c.toNat / 16 < 16 := by omega
                    have hmod : c.toNat % 16 < 16 := by omega
                    simp only [List.cons_append, List.nil_append]
                    rw [show ∀ h3 h4 tail, parseStrChars (f + 1)
                        ('\\' :: 'u' :: '0' :: '0' :: h3 :: h4 :: tail) =
                        match hexVal '0', hexVal '0', hexVal h3, hexVal h4 with
                        | some a, some b, some hc, some d =>
                          (parseStrChars f tail).map
                            (fun r => (Char.ofNat (a * 4096 + b * 256 + hc * 16 + d) :: r.1, r.2))
                        | _, _, _, _ => none from fun _ _ _ => rfl]
                    rw [hexVal_hexChar (c.toNat / 16) hdiv, hexVal_hexChar (c.toNat % 16) hmod]
                    simp only [show hexVal '0' = some 0 from rfl]
                    rw [hrec]
                    have hc : c.toNat / 16 * 16 + c.toNat % 16 = c.toNat := by omega
                    simp [hc, Char.ofNat_toNat]
                  · rw [escapeChar, if_neg h1, if_neg h2, if_neg h3, if_neg h4, if_neg h5,
                      if_neg h6, if_neg h7, if_neg h8]
                    simp only [List.cons_append, List.nil_append]
                    rw [show parseStrChars (f + 1) (c :: (escapeList cs ++ '"' :: rest)) =
                      if c = '"' then some ([], escapeList cs ++ '"' :: rest)
                      else if c = '\\' then
                        match escapeList cs ++ '"' :: rest with
                        | [] => none
                        | 'u' :: p1 :: p2 :: p3 :: p4 :: rest2 =>
                          match hexVal p1, hexVal p2, hexVal p3, hexVal p4 with
                          | some a, some b, some hc, some d =>
                            (parseStrChars f rest2).map
                              (fun r => (Char.ofNat (a * 4096 + b * 256 + hc * 16 + d) :: r.1, r.2))
                          | _, _, _, _ => none
                        | e :: rest2 =>
                          match unescapeChar e with
                          | some d => (parseStrChars f rest2).map (fun r => (d :: r.1, r.2))
                          | none => none
                      else if c.toNat < 32 then none
                      else (parseStrChars f (escapeList cs ++ '"' :: rest)).map
                        (fun r => (c :: r.1, r.2)) from rfl]
                    rw [if_neg h1, if_neg h2, if_neg h8, hrec]
                    rfl

theorem fuelNeed_pos (v : Json) : 1 ≤ fuelNeed v := by
  cases v <;> simp [fuelNeed]

theorem intToChars_cons (n : Int) :
    ∃ c t, intToChars n = c :: t ∧ isJsonWs c = false ∧ c ≠ ']' ∧ c ≠ rbrace := by
  by_cases hn : n < 0
  · exact ⟨'-', natToChars n.natAbs, by rw [intToChars, if_pos hn], by decide, by decide,
      by decide⟩
  · obtain ⟨d, t, ht, hd, _⟩ := natToChars_cons n.toNat
    refine ⟨digitChar d, t, by rw [intToChars, if_neg hn, ht], ?_, (digitChar_ne d hd).2.2.1,
      (digitChar_ne d hd).2.2.2⟩
    exact isJsonWs_false_of_digit _ (digitChar_facts d hd).1

theorem stringifyCompact_head (v : Json) :
    ∃ c t, stringifyCompact v = c :: t ∧ isJsonWs c = false ∧ c ≠ ']' ∧ c ≠ rbrace := by
  cases v with
  | null => exact ⟨'n', _, rfl, by decide, by decide, by decide⟩
  | bool b =>
    cases b
    · exact ⟨'f', _, rfl, by decide, by decide, by decide⟩
    · exact ⟨'t', _, rfl, by decide, by decide, by decide⟩
  | num n =>
    obtain ⟨c, t, hct, hws, h1, h2⟩ := intToChars_cons n
    exact ⟨c, t, hct, hws, h1, h2⟩
  | str s => exact ⟨'"', _, rfl, by decide, by decide, by decide⟩
  | arr xs =>
    cases xs with
    | nil => exact ⟨'[', _, rfl, by decide, by decide, by decide⟩
    | cons x xs => exact ⟨'[', _, rfl, by decide, by decide, by decide⟩
  | obj fs =>
    cases fs with
    | nil => exact ⟨lbrace, _, rfl, by decide, by decide, by decide⟩
    | cons k v fs => exact ⟨lbrace, _, rfl, by decide, by decide, by decide⟩

theorem noDigit_elems_cont (xs : JsonList) (rest : List Char) :
    noDigitStart (stringifyElems xs ++ (']' :: rest)) := by
  cases xs with
  | nil =>
    intro y hy
    simp [stringifyElems] at hy
    subst hy
    decide
  | cons x xs =>
    intro y hy
    rw [stringifyElems] at hy
    simp at hy
    subst hy
    decide

theorem noDigit_fields_cont (fs : JsonFields) (rest : List Char) :
    noDigitStart (stringifyFields fs ++ (rbrace :: rest)) := by
  cases fs with
  | nil =>
    intro y hy
    simp [stringifyFields] at hy
    subst hy
    decide
  | cons k v fs =>
    intro y hy
    rw [stringifyFields] at hy
    simp at hy
    subst hy
    decide

theorem intToChars_length_pos (n : Int) : 1 ≤ (intToChars n).length := by
  obtain ⟨c, t, hct, _, _, _⟩ := intToChars_cons n
  rw [hct]
  simp

theorem escapeString_length (s : String) :
    (escapeString s).length = (escapeList s.toList).length + 2 := by
  simp [escapeString]

mutual

theorem fuelNeed_le : ∀ v : Json, fuelNeed v ≤ 2 * (stringifyCompact v).length
  | .null => by simp [fuelNeed, stringifyCompact, charsNull]
  | .bool b => by cases b <;> simp [fuelNeed, stringifyCompact, charsTrue, charsFalse]
  | .num n => by
    have := intToChars_length_pos n
    simp only [fuelNeed, stringifyCompact]
    omega
  | .str s => by
    simp only [fuelNeed, stringifyCompact, escapeString_length]
    omega
  | .arr xs => by
    have h := fuelNeedElems_le xs
    simp only [fuelNeed]
    cases xs with
    | nil => simp [stringifyCompact, fuelNeedElems]
    | cons x xs =>
      simp only [stringifyCompact, List.length_cons, List.length_append]
      simp only [stringifyElems] at h
      simp only [List.length_cons, List.length_append] at h
      omega
  | .obj fs => by
    have h := fuelNeedFields_le fs
    simp only [fuelNeed]
    cases fs with
    | nil => simp [stringifyCompact, fuelNeedFields]
    | cons k v fs =>
      simp only [stringifyCompact, List.length_cons, List.length_append]
      simp only [stringifyFields] at h
      simp only [List.length_cons, List.length_append] at h
      omega

theorem fuelNeedElems_le : ∀ xs : JsonList,
    fuelNeedElems xs ≤ 2 * (stringifyElems xs).length + 1
  | JsonList.nil => by simp [fuelNeedElems, stringifyElems]
  | JsonList.cons x xs => by
    have h1 := fuelNeed_le x
    have h2 := fuelNeedElems_le xs
    simp only [fuelNeedElems, stringifyElems, List.length_cons, List.length_append]
    omega

theorem fuelNeedFields_le : ∀ fs : JsonFields,
    fuelNeedFields fs ≤ 2 * (stringifyFields fs).length + 1
  | JsonFields.nil => by simp [fuelNeedFields, stringifyFields]
  | JsonFields.cons k v fs => by
    have h1 := fuelNeed_le v
    have h2 := fuelNeedFields_le fs
    simp only [fuelNeedFields, stringifyFields, List.length_cons, List.length_append,
      escapeString_length]
    omega

end

theorem parse_stringify_aux : ∀ fuel : Nat,
    (∀ (v : Json) (rest : List Char), fuelNeed v ≤ fuel → noDigitStart rest →
      parseVal fuel (stringifyCompact v ++ rest) = some (v, rest)) ∧
    (∀ (x : Json) (xs : JsonList) (rest : List Char),
      1 + fuelNeed x + fuelNeedElems xs ≤ fuel →
      parseElems fuel (stringifyCompact x ++ (stringifyElems xs ++ (']' :: rest))) =
        some (JsonList.cons x xs, rest)) ∧
    (∀ (k : String) (v : Json) (fs : JsonFields) (rest : List Char),
      1 + fuelNeed v + fuelNeedFields fs ≤ fuel →
      parseFields fuel (escapeString k ++
          (':' :: (stringifyCompact v ++ (stringifyFields fs ++ (rbrace :: rest))))) =
        some (JsonFields.cons k v fs, rest)) := by
  intro fuel
  induction fuel with
  | zero =>
    refine ⟨?_, ?_, ?_⟩
    · intro v rest hf _
      have := fuelNeed_pos v
      omega
    · intro x xs rest hf
      omega
    · intro k v fs rest hf
      omega
  | succ f ih =>
    obtain ⟨ihA, ihB, ihC⟩ := ih
    refine ⟨?_, ?_, ?_⟩
    · intro v rest hfuel hrest
      cases v with
      | null => rfl
      | bool b => cases b <;> rfl
      | num n =>
        rw [show stringifyCompact (Json.num n) = intToChars n from rfl]
        have hspec := parseNum_spec_int n rest hrest
        by_cases hn : n < 0
        · rw [intToChars, if_pos hn] at hspec ⊢
          simp only [List.cons_append] at hspec ⊢
          rw [show ∀ tl, parseVal (f + 1) ('-' :: tl) = parseNum ('-' :: tl) from
            fun _ => rfl, hspec]
        · rw [intToChars, if_neg hn] at hspec ⊢
          obtain ⟨d, t, ht, hd, _⟩ := natToChars_cons n.toNat
          rw [ht] at hspec ⊢
          simp only [List.cons_append] at hspec ⊢
          have hdig := (digitChar_facts d hd).1
          have hws := isJsonWs_false_of_digit _ hdig
          have h1 : digitChar d ≠ 'n' := isDigit_ne _ 'n' hdig (by decide)
          have h2 : digitChar d ≠ 't' := isDigit_ne _ 't' hdig (by decide)
          have h3 : digitChar d ≠ 'f' := isDigit_ne _ 'f' hdig (by decide)
          have h4 : digitChar d ≠ '"' := isDigit_ne _ '"' hdig (by decide)
          have h5 : digitChar d ≠ '[' := isDigit_ne _ '[' hdig (by decide)
          have h6 : digitChar d ≠ lbrace := isDigit_ne _ lbrace hdig (by decide)
          conv_lhs => rw [parseVal]
          rw [skipWs_cons _ _ hws]
          simp only [if_neg h1, if_neg h2, if_neg h3, if_neg h4, if_neg h5, if_neg h6]
          rw [if_pos (Or.inr hdig), hspec]
      | str s =>
        rw [show stringifyCompact (Json.str s) = escapeString s from rfl, escapeString]
        simp only [List.cons_append, List.append_assoc, List.singleton_append, List.nil_append]
        rw [show ∀ tl, parseVal (f + 1) ('"' :: tl) =
          (parseStrChars (tl.length + 1) tl).map (fun r => (Json.str (String.mk r.1), r.2)) from
          fun _ => rfl]
        have hlen : s.toList.length < (escapeList s.toList ++ ('"' :: rest)).length + 1 := by
          have := escapeList_length_ge s.toList
          simp only [List.length_append, List.length_cons]
          omega
        rw [parseStrChars_escape s.toList _ rest hlen]
        simp [stringMk_toList]
      | arr xs =>
        cases xs with
        | nil => rfl
        | cons x xs =>
          rw [show stringifyCompact (Json.arr (JsonList.cons x xs)) =
            '[' :: (stringifyCompact x ++ stringifyElems xs ++ [']']) from rfl]
          simp only [List.cons_append, List.append_assoc, List.singleton_append, List.nil_append]
          rw [show ∀ tl, parseVal (f + 1) ('[' :: tl) =
            (if (skipWs tl).head? = some ']' then some (Json.arr JsonList.nil, (skipWs tl).tail)
             else (parseElems f (skipWs tl)).map (fun p => (Json.arr p.1, p.2))) from
            fun _ => rfl]
          obtain ⟨c0, t0, hsc, hws0, hne0, _⟩ := stringifyCompact_head x
          rw [hsc]
          simp only [List.cons_append]
          rw [skipWs_cons _ _ hws0, if_neg (by simp [hne0])]
          rw [← List.cons_append, ← hsc]
          have harith : 1 + fuelNeed x + fuelNeedElems xs ≤ f := by
            simp only [fuelNeed, fuelNeedElems] at hfuel
            omega
          rw [ihB x xs rest harith]
          rfl
      | obj fs =>
        cases fs with
        | nil => rfl
        | cons k v fs =>
          rw [show stringifyCompact (Json.obj (JsonFields.cons k v fs)) =
            lbrace :: (escapeString k ++ ':' :: stringifyCompact v ++ stringifyFields fs ++
              [rbrace]) from rfl]
          simp only [List.cons_append, List.append_assoc, List.singleton_append, List.nil_append]
          rw [show ∀ tl, parseVal (f + 1) (lbrace :: tl) =
            (if (skipWs tl).head? = some rbrace then
              some (Json.obj JsonFields.nil, (skipWs tl).tail)
             else (parseFields f (skipWs tl)).map (fun p => (Json.obj p.1, p.2))) from
            fun _ => rfl]
          have hcons : escapeString k ++ (':' :: (stringifyCompact v ++ (stringifyFields fs ++
              (rbrace :: rest)))) = '"' :: (escapeList k.toList ++ ('"' :: (':' ::
              (stringifyCompact v ++ (stringifyFields fs ++ (rbrace :: rest)))))) := by
            rw [escapeString]
            simp [List.cons_append, List.append_assoc]
          rw [hcons, skipWs_cons _ _ (by decide)]
          simp only [List.head?_cons, Option.some.injEq]
          rw [if_neg (show ¬ (('"' : Char) = rbrace) by decide), ← hcons]
          have harith : 1 + fuelNeed v + fuelNeedFields fs ≤ f := by
            simp only [fuelNeed, fuelNeedFields] at hfuel
            omega
          rw [ihC k v fs rest harith]
          rfl
    · intro x xs rest h
      have hfx : fuelNeed x ≤ f := by omega
      conv_lhs => rw [parseElems]
      rw [ihA x (stringifyElems xs ++ (']' :: rest)) hfx (noDigit_elems_cont xs rest)]
      cases xs with
      | nil =>
        simp only [stringifyElems, List.nil_append]
        rw [skipWs_cons _ _ (by decide)]
        simp only [reduceIte]
        rw [if_neg (show ¬ ((']' : Char) = ',') by decide)]
      | cons y ys =>
        simp only [stringifyElems]
        simp only [List.cons_append, List.append_assoc]
        rw [skipWs_cons _ _ (by decide)]
        simp only [reduceIte]
        have harith : 1 + fuelNeed y + fuelNeedElems ys ≤ f := by
          simp only [fuelNeedElems] at h
          have := fuelNeed_pos x
          omega
        rw [ihB y ys rest harith]
        rfl
    · intro k v fs rest h
      have hfv : fuelNeed v ≤ f := by omega
      conv_lhs => rw [parseFields]
      have hcons : escapeString k ++ (':' :: (stringifyCompact v ++ (stringifyFields fs ++
          (rbrace :: rest)))) = '"' :: (escapeList k.toList ++ ('"' :: (':' ::
          (stringifyCompact v ++ (stringifyFields fs ++ (rbrace :: rest)))))) := by
        rw [escapeString]
        simp [List.cons_append, List.append_assoc]
      have hlen : k.toList.length < (escapeList k.toList ++ ('"' :: (':' ::
          (stringifyCompact v ++ (stringifyFields fs ++ (rbrace :: rest)))))).length + 1 := by
        have := escapeList_length_ge k.toList
        simp only [List.length_append, List.length_cons]
        omega
      rw [hcons, skipWs_cons _ _ (by decide)]
      simp only [reduceIte]
      simp only [parseStrChars_escape k.toList _ _ hlen,
        skipWs_cons ':' (stringifyCompact v ++ (stringifyFields fs ++ (rbrace :: rest)))
          (by decide), reduceIte, stringMk_toList,
        ihA v (stringifyFields fs ++ (rbrace :: rest)) hfv (noDigit_fields_cont fs rest)]
      cases fs with
      | nil =>
        simp only [stringifyFields, List.nil_append]
        rw [skipWs_cons _ _ (by decide)]
        simp only [reduceIte, stringMk_toList]
        rw [if_neg (show ¬ (rbrace = ',') by decide)]
      | cons k2 v2 fs2 =>
        simp only [stringifyFields]
        simp only [List.cons_append, List.append_assoc]
        rw [skipWs_cons _ _ (by decide)]
        simp only [reduceIte]
        have harith : 1 + fuelNeed v2 + fuelNeedFields fs2 ≤ f := by
          simp only [fuelNeedFields] at h
          have := fuelNeed_pos v
          omega
        rw [ihC k2 v2 fs2 rest harith]
        simp [stringMk_toList]

theorem parse_jsonStringify (v : Json) : Json.parse (jsonStringify v) = some v := by
  rw [Json.parse, jsonStringify, length_stringMk, toList_stringMk]
  have hb := fuelNeed_le v
  have h := (parse_stringify_aux (2 * (stringifyCompact v).length + 2)).1 v []
    (by omega) (by intro y hy; simp at hy)
  rw [List.append_nil] at h
  rw [h]
  rfl

theorem extractText_eq (task : A2ATask) (a : Artifact) (arts : List Artifact)
    (p : ArtifactPart) (h1 : task.artifacts = a :: arts)
    (h2 : findTextPart a.parts = some p) (h3 : ¬ p.text = "") :
    extractText task =
      (match Json.parse p.text with
       | none => p.text
       | some parsed =>
         match unwrapParsed parsed with
         | Except.ok s => s
         | Except.error _ => p.text) := by
  simp only [extractText, h1, h2, if_neg h3]

theorem extractData_eq (task : A2ATask) (a : Artifact) (arts : List Artifact)
    (p : ArtifactPart) (h1 : task.artifacts = a :: arts)
    (h2 : findTextPart a.parts = some p) (h3 : ¬ p.text = "") :
    extractData task =
      (match Json.parse p.text with
       | some v => v
       | none => Json.str p.text) := by
  simp only [extractData, h1, h2, if_neg h3]

theorem unwrap_agree (parsed : Json) :
    (match unwrapParsed parsed with
     | Except.ok s => some s
     | Except.error _ => none) = specUnwrapTruthy parsed := by
  cases parsed <;>
    first
    | rfl
    | (simp only [unwrapParsed, specUnwrapTruthy]
       split_ifs <;> rfl)

theorem sendMessageText_ne_empty (op : String) (params : JsonFields) :
    ¬ sendMessageText op params = "" := by
  intro h
  have h2 : stringifyCompact (Json.obj (JsonFields.cons ("operation") (Json.str op)
      (JsonFields.cons ("params") (Json.obj params) JsonFields.nil))) = [] := by
    have := congrArg String.toList h
    simpa [sendMessageText, jsonStringify] using this
  simp [stringifyCompact] at h2

theorem processBlocks_append (dispatch : Dispatch) (xs ys : List Block) :
    processBlocks dispatch (xs ++ ys) =
      processBlocks dispatch xs ++ processBlocks dispatch ys := by
  induction xs with
  | nil => simp [processBlocks]
  | cons b bs ih =>
    cases b with
    | text s => simpa [processBlocks] using ih
    | toolUse id name input =>
      by_cases h1 : name = "declare_plan"
      · simp [processBlocks, h1, ih]
      · by_cases h2 : name = "a2a_call"
        · simp [processBlocks, h1, h2, ih]
        · simp [processBlocks, h1, h2, ih]

theorem processBlocks_a2a_cons (dispatch : Dispatch) (id : String)
    (input : ToolInput) (bs : List Block) :
    processBlocks dispatch (Block.toolUse id ("a2a_call") input :: bs) =
      (id, executeCallResult dispatch input.operation
        (input.params.getD JsonFields.nil)) :: processBlocks dispatch bs := by
  simp [processBlocks]

theorem runTurn_tool_use_eq (dispatch : Dispatch) (r : InferResponse)
    (rest : List InferResponse) (msgs : List Msg)
    (h : r.stop_reason = "tool_use") :
    runTurn dispatch (r :: rest) msgs =
      (match runTurn dispatch rest (msgs ++ [Msg.assistant r.content,
          Msg.toolResults (processBlocks dispatch r.content)]) with
       | some (m, inf, calls) => some (m, inf + 1, calls + countA2A r.content)
       | none => none) := by
  rw [runTurn, h]
  simp

theorem executeCallResult_error (dispatch : Dispatch) (op : String)
    (params : JsonFields) (e : String) (h : dispatch op params = Except.error e) :
    executeCallResult dispatch op params =
      jsonStringify (Json.obj (JsonFields.cons ("error") (Json.str e)
        JsonFields.nil)) := by
  rw [executeCallResult, h]

theorem executeCallResult_ok (dispatch : Dispatch) (op : String)
    (params : JsonFields) (task : A2ATask) (h : dispatch op params = Except.ok task) :
    executeCallResult dispatch op params =
      jsonStringifyPretty (Json.obj (JsonFields.cons ("status")
        (Json.str task.status.state) (JsonFields.cons ("data") (extractData task)
          (warnFields task)))) := by
  rw [executeCallResult, h]

theorem displayOpsLoop_valid : ∀ (ls : List String) (op : OperationInfo),
    op ∈ displayOpsLoop ls → validOpName op.operation = true := by
  intro ls
  induction ls with
  | nil => intro op h; simp [displayOpsLoop] at h
  | cons line ls ih =>
    intro op h
    simp only [displayOpsLoop] at h
    split at h
    · exact ih op h
    · split at h
      · exact ih op h
      · split at h
        · split at h
          · rcases List.mem_cons.mp h with h1 | h1
            · subst h1
              simp_all
            · exact ih op h1
          · exact ih op h
        · exact ih op h

theorem extractText_parsed (task : A2ATask) (a : Artifact) (arts : List Artifact)
    (p : ArtifactPart) (h1 : task.artifacts = a :: arts)
    (h2 : findTextPart a.parts = some p) (h3 : ¬ p.text = "") (parsed : Json)
    (h4 : Json.parse p.text = some parsed) :
    extractText task =
      (match unwrapParsed parsed with
       | Except.ok s => s
       | Except.error _ => p.text) := by
  rw [extractText_eq task a arts p h1 h2 h3, h4]

/-- C1 (amended): `extractText` resolves its unwrap priority with every branch
guarded by JavaScript truthiness, first match winning, on top of the
documented fallbacks: no artifacts or no text-kind part give the fixed
no-response sentinel, an empty text gives the sentinel, unparseable text is
returned verbatim, and a parsed value reaching no truthy branch (in
particular a parsed `null`, whose property access throws) falls back to the
raw text. -/
theorem extractText_unwrap_priority (task : A2ATask) :
    (task.artifacts = [] → extractText task = noResponse) ∧
    ∀ a arts, task.artifacts = a :: arts →
      (findTextPart a.parts = none → extractText task = noResponse) ∧
      ∀ p, findTextPart a.parts = some p →
        (p.text = "" → extractText task = noResponse) ∧
        (¬ p.text = "" →
          (Json.parse p.text = none → extractText task = p.text) ∧
          ∀ parsed, Json.parse p.text = some parsed →
            extractText task =
              (match specUnwrapTruthy parsed with
               | some s => s
               | none => p.text)) := by
  refine ⟨?_, ?_⟩
  · intro h
    simp [extractText, h]
  · intro a arts h1
    refine ⟨?_, ?_⟩
    · intro h2
      simp [extractText, h1, h2]
    · intro p h2
      refine ⟨?_, ?_⟩
      · intro h3
        simp [extractText, h1, h2, h3]
      · intro h3
        refine ⟨?_, ?_⟩
        · intro h4
          rw [extractText_eq task a arts p h1 h2 h3, h4]
        · intro parsed h4
          rw [extractText_parsed task a arts p h1 h2 h3 parsed h4,
            ← unwrap_agree parsed]
          cases unwrapParsed parsed <;> rfl

/-- C1 witness: on a task whose text carries both `data.reply` and
`data.message`, the reply wins. -/
theorem extractText_unwrap_priority_witness :
    extractText (textTask
      ("\x7b\"data\":\x7b\"reply\":\"A\",\"message\":\"B\"\x7d\x7d")) = "A" := by
  have h := extractText_unwrap_priority (textTask
    ("\x7b\"data\":\x7b\"reply\":\"A\",\"message\":\"B\"\x7d\x7d"))
  have h2 := ((((h.2 _ _ rfl).2 _ rfl).2 (by decide)).2 _ rfl)
  exact h2.trans rfl

/-- C1 counterexample: the claim's presence-based priority differs from the
source.  On the parsed value of the text holding only a numeric field
`message: 0`, presence-based unwrapping stringifies the field to `0`, while
`extractText` skips the falsy field and pretty-prints the whole value. -/
theorem extractText_unwrap_priority_counterexample :
    Json.parse ("\x7b\"message\":0\x7d") =
      some (Json.obj (JsonFields.cons ("message") (Json.num 0) JsonFields.nil)) ∧
    specUnwrap (Json.obj (JsonFields.cons ("message") (Json.num 0)
      JsonFields.nil)) = "0" ∧
    extractText (textTask ("\x7b\"message\":0\x7d")) =
      "\x7b\n  \"message\": 0\n\x7d" ∧
    (extractText (textTask ("\x7b\"message\":0\x7d")) ==
      specUnwrap (Json.obj (JsonFields.cons ("message") (Json.num 0)
        JsonFields.nil))) = false :=
  ⟨rfl, rfl, rfl, rfl⟩

/-- C2: when an `a2a_call` dispatch fails, the block loop still produces
exactly one tool-result for that call, whose content is the JSON encoding of
an object holding the failure message under `error` (and decodes back to that
object), and the loop neither terminates nor rethrows: it appends the
tool-results turn and proceeds to the next inference call. -/
theorem a2a_call_failure_toolresult (dispatch : Dispatch) (op : String)
    (params : JsonFields) (e : String) (h : dispatch op params = Except.error e)
    (id : String) (input : ToolInput) (hop : input.operation = op)
    (hpar : input.params = some params) (pre post : List Block)
    (rest : List InferResponse) (msgs : List Msg) :
    processBlocks dispatch (pre ++ Block.toolUse id ("a2a_call") input :: post) =
      processBlocks dispatch pre ++
        (id, jsonStringify (Json.obj (JsonFields.cons ("error") (Json.str e)
          JsonFields.nil))) :: processBlocks dispatch post ∧
    Json.parse (jsonStringify (Json.obj (JsonFields.cons ("error") (Json.str e)
        JsonFields.nil))) =
      some (Json.obj (JsonFields.cons ("error") (Json.str e) JsonFields.nil)) ∧
    runTurn dispatch (InferResponse.mk ("tool_use")
        (pre ++ Block.toolUse id ("a2a_call") input :: post) :: rest) msgs =
      (match runTurn dispatch rest (msgs ++ [Msg.assistant
          (pre ++ Block.toolUse id ("a2a_call") input :: post),
          Msg.toolResults (processBlocks dispatch
            (pre ++ Block.toolUse id ("a2a_call") input :: post))]) with
       | some (m, inf, calls) =>
         some (m, inf + 1, calls +
           countA2A (pre ++ Block.toolUse id ("a2a_call") input :: post))
       | none => none) := by
  refine ⟨?_, parse_jsonStringify _, ?_⟩
  · rw [processBlocks_append, processBlocks_a2a_cons, hop, hpar]
    rw [show (some params).getD JsonFields.nil = params from rfl]
    rw [executeCallResult_error dispatch op params e h]
  · exact runTurn_tool_use_eq dispatch _ rest msgs rfl

/-- C2 witness: a failing dispatch yields the single error tool-result for
the call. -/
theorem a2a_call_failure_toolresult_witness :
    processBlocks failDispatch [Block.toolUse ("toolu_1") ("a2a_call") callInput] =
      [(("toolu_1"), jsonStringify (Json.obj (JsonFields.cons ("error")
        (Json.str ("A2A request failed: HTTP 500")) JsonFields.nil)))] := by
  have h := a2a_call_failure_toolresult failDispatch ("ns_list") JsonFields.nil
    ("A2A request failed: HTTP 500") rfl ("toolu_1") callInput rfl rfl [] [] [] []
  exact h.1

/-- C3: a JSON-RPC response carrying an `error` object makes every client
call fail with the protocol error built from that object's code and message,
whatever the `result` field holds. -/
theorem rpc_error_precedence (resp : JsonRpcResponse) (e : RpcError)
    (h : resp.error = some e) :
    sendTextHandle resp = Except.error (a2aErrorMessage e) ∧
    sendHandle resp = Except.error (a2aErrorMessage e) ∧
    getTaskHandle resp = Except.error (a2aErrorMessage e) ∧
    cancelTaskHandle resp = Except.error (a2aErrorMessage e) := by
  refine ⟨?_, ?_, ?_, ?_⟩ <;>
    simp [sendTextHandle, sendHandle, getTaskHandle, cancelTaskHandle, h]

/-- C3 witness: a response carrying both a result and an error fails with
the error's code and message. -/
theorem rpc_error_precedence_witness :
    sendTextHandle (JsonRpcResponse.mk (some (textTask ("\"x\"")))
        (some (RpcError.mk (-32600) ("Invalid Request")))) =
      Except.error ("A2A error [-32600]: Invalid Request") := by
  have h := rpc_error_precedence (JsonRpcResponse.mk (some (textTask ("\"x\"")))
    (some (RpcError.mk (-32600) ("Invalid Request")))) (RpcError.mk (-32600)
    ("Invalid Request")) rfl
  exact h.1.trans (by rfl)

/-- C4: when an `a2a_call` dispatch succeeds with a task, the block loop
produces exactly one tool-result for that call, rendering a JSON object that
carries the task's status state under `status` and `extractData` of the task
under `data`, with a `warning` field holding the low-balance advisory message
exactly when the task's metadata carries one; the tool-results turn is
appended before the next inference call is made. -/
theorem a2a_call_success_toolresult (dispatch : Dispatch) (op : String)
    (params : JsonFields) (task : A2ATask) (h : dispatch op params = Except.ok task)
    (id : String) (input : ToolInput) (hop : input.operation = op)
    (hpar : input.params = some params) (pre post : List Block)
    (rest : List InferResponse) (msgs : List Msg) :
    (∃ fields,
      processBlocks dispatch (pre ++ Block.toolUse id ("a2a_call") input :: post) =
        processBlocks dispatch pre ++
          (id, jsonStringifyPretty (Json.obj fields)) :: processBlocks dispatch post ∧
      lookupLast fields ("status") = some (Json.str task.status.state) ∧
      lookupLast fields ("data") = some (extractData task) ∧
      lookupLast fields ("warning") =
        (match task.metadata with
         | some m =>
           match m.lowBalanceWarning with
           | some w => some (Json.str w.message)
           | none => none
         | none => none)) ∧
    runTurn dispatch (InferResponse.mk ("tool_use")
        (pre ++ Block.toolUse id ("a2a_call") input :: post) :: rest) msgs =
      (match runTurn dispatch rest (msgs ++ [Msg.assistant
          (pre ++ Block.toolUse id ("a2a_call") input :: post),
          Msg.toolResults (processBlocks dispatch
            (pre ++ Block.toolUse id ("a2a_call") input :: post))]) with
       | some (m, inf, calls) =>
         some (m, inf + 1, calls +
           countA2A (pre ++ Block.toolUse id ("a2a_call") input :: post))
       | none => none) := by
  refine ⟨⟨JsonFields.cons ("status") (Json.str task.status.state)
    (JsonFields.cons ("data") (extractData task) (warnFields task)), ?_, ?_, ?_, ?_⟩, ?_⟩
  · rw [processBlocks_append, processBlocks_a2a_cons, hop, hpar]
    rw [show (some params).getD JsonFields.nil = params from rfl]
    rw [executeCallResult_ok dispatch op params task h]
  · rcases hm : task.metadata with _ | m
    · simp [lookupLast, warnFields, hm]
    · rcases hw : m.lowBalanceWarning with _ | w
      · simp [lookupLast, warnFields, hm, hw]
      · simp [lookupLast, warnFields, hm, hw]
  · rcases hm : task.metadata with _ | m
    · simp [lookupLast, warnFields, hm]
    · rcases hw : m.lowBalanceWarning with _ | w
      · simp [lookupLast, warnFields, hm, hw]
      · simp [lookupLast, warnFields, hm, hw]
  · rcases hm : task.metadata with _ | m
    · simp [lookupLast, warnFields, hm]
    · rcases hw : m.lowBalanceWarning with _ | w
      · simp [lookupLast, warnFields, hm, hw]
      · simp [lookupLast, warnFields, hm, hw]
  · exact runTurn_tool_use_eq dispatch _ rest msgs rfl

/-- C4 witness: a successful dispatch on a task carrying a low-balance
advisory yields the single tool-result with status, data and warning. -/
theorem a2a_call_success_toolresult_witness :
    ∃ fields,
      processBlocks warnDispatch [Block.toolUse ("toolu_2") ("a2a_call") callInput] =
        [(("toolu_2"), jsonStringifyPretty (Json.obj fields))] ∧
      lookupLast fields ("status") = some (Json.str ("completed")) ∧
      lookupLast fields ("data") = some (Json.str ("ok")) ∧
      lookupLast fields ("warning") = some (Json.str ("balance low")) := by
  have h := a2a_call_success_toolresult warnDispatch ("ns_list") JsonFields.nil
    warnTask rfl ("toolu_2") callInput rfl rfl [] [] [] []
  obtain ⟨fields, h1, h2, h3, h4⟩ := h.1
  exact ⟨fields, h1, h2, h3.trans (by rfl), h4.trans (by rfl)⟩

/-- C5: the message text submitted by `send(operation, params)` is the JSON
encoding of the envelope object holding `operation` and `params`, and
`extractData` on a task echoing that text recovers the envelope exactly, so
reading its `operation` and `params` properties returns the originals. -/
theorem send_extractData_roundtrip (op : String) (params : JsonFields)
    (task : A2ATask) (a : Artifact) (arts : List Artifact) (p : ArtifactPart)
    (h1 : task.artifacts = a :: arts) (h2 : findTextPart a.parts = some p)
    (h3 : p.text = sendMessageText op params) :
    sendMessageText op params =
      jsonStringify (Json.obj (JsonFields.cons ("operation") (Json.str op)
        (JsonFields.cons ("params") (Json.obj params) JsonFields.nil))) ∧
    extractData task =
      Json.obj (JsonFields.cons ("operation") (Json.str op)
        (JsonFields.cons ("params") (Json.obj params) JsonFields.nil)) ∧
    jsGet (extractData task) ("operation") = some (Json.str op) ∧
    jsGet (extractData task) ("params") = some (Json.obj params) := by
  have hne : ¬ p.text = "" := by
    rw [h3]
    exact sendMessageText_ne_empty op params
  have hd : extractData task =
      Json.obj (JsonFields.cons ("operation") (Json.str op)
        (JsonFields.cons ("params") (Json.obj params) JsonFields.nil)) := by
    rw [extractData_eq task a arts p h1 h2 hne, h3]
    rw [show sendMessageText op params = jsonStringify (Json.obj
      (JsonFields.cons ("operation") (Json.str op) (JsonFields.cons ("params")
        (Json.obj params) JsonFields.nil))) from rfl]
    rw [parse_jsonStringify]
  refine ⟨rfl, hd, ?_, ?_⟩
  · rw [hd]
    simp [jsGet, lookupLast]
  · rw [hd]
    simp [jsGet, lookupLast]

/-- C5 witness: echoing the submitted text for `ns_list` with a one-field
params object recovers the envelope. -/
theorem send_extractData_roundtrip_witness :
    extractData (textTask (sendMessageText ("ns_list")
        (JsonFields.cons ("name") (Json.str ("demo")) JsonFields.nil))) =
      Json.obj (JsonFields.cons ("operation") (Json.str ("ns_list"))
        (JsonFields.cons ("params") (Json.obj (JsonFields.cons ("name")
          (Json.str ("demo")) JsonFields.nil)) JsonFields.nil)) := by
  have h := send_extractData_roundtrip ("ns_list")
    (JsonFields.cons ("name") (Json.str ("demo")) JsonFields.nil)
    (textTask (sendMessageText ("ns_list")
      (JsonFields.cons ("name") (Json.str ("demo")) JsonFields.nil)))
    (Artifact.mk ("art-1") ("result") [ArtifactPart.mk ("text")
      (sendMessageText ("ns_list") (JsonFields.cons ("name") (Json.str ("demo"))
        JsonFields.nil))]) []
    (ArtifactPart.mk ("text") (sendMessageText ("ns_list")
      (JsonFields.cons ("name") (Json.str ("demo")) JsonFields.nil)))
    rfl rfl rfl
  exact h.2.1

/-- C6 (amended): every operation descriptor produced by the discovery parser
of `fetchOperationsWithDisplay` in agent.ts has an `operation` field matching
the regular expression of lowercase names, because that parser validates each
candidate row; the `fetchOperations` parser of agent-card.ts performs no such
validation and can emit violating names. -/
theorem discovery_operation_invariant (reply : String) (op : OperationInfo)
    (h : op ∈ parseOpsDisplay reply) : validOpName op.operation = true :=
  displayOpsLoop_valid (splitOnCharStr '\n' reply) op h

/-- C6 witness: a well-formed table row yields a descriptor whose operation
name passes the validation. -/
theorem discovery_operation_invariant_witness :
    validOpName (OperationInfo.mk ("foo") ("p") ("d")).operation = true :=
  discovery_operation_invariant ("| \x60foo\x60 | p | d |")
    (OperationInfo.mk ("foo") ("p") ("d")) (by decide)

/-- C6 counterexample: the format-1 pattern of `fetchOperations` in
agent-card.ts captures any backticked cell, so a capitalised name flows into
a descriptor even though it fails the lowercase validation pattern. -/
theorem discovery_operation_invariant_counterexample :
    parseOperationsReply ("| \x60Foo\x60 | p | d |") =
      [OperationInfo.mk ("Foo") ("p") ("d")] ∧
    validOpName ("Foo") = false :=
  ⟨rfl, rfl⟩

/-- C7 (amended): the empty-result check guards `sendText` and `send` only;
`getTask` as well as `cancelTask` return the absent result as-is through the
unchecked non-null assertion, so a 2xx response carrying neither `result` nor
`error` makes `sendText` and `send` fail with the empty-result error while
`getTask` and `cancelTask` succeed with the absent value. -/
theorem empty_result_check_location (resp : JsonRpcResponse)
    (h : resp.error = none) (h2 : resp.result = none) :
    sendTextHandle resp = Except.error ("Empty response from A2A endpoint") ∧
    sendHandle resp = Except.error ("Empty response from A2A endpoint") ∧
    getTaskHandle resp = Except.ok none ∧
    cancelTaskHandle resp = Except.ok none := by
  refine ⟨?_, ?_, ?_, ?_⟩ <;>
    simp [sendTextHandle, sendHandle, getTaskHandle, cancelTaskHandle, h, h2]

/-- C7 witness: on the response with neither field, the senders fail and the
task getters succeed with the absent value. -/
theorem empty_result_check_location_witness :
    sendTextHandle (JsonRpcResponse.mk none none) =
      Except.error ("Empty response from A2A endpoint") ∧
    getTaskHandle (JsonRpcResponse.mk none none) = Except.ok none := by
  have h := empty_result_check_location (JsonRpcResponse.mk none none) rfl rfl
  exact ⟨h.1, h.2.2.1⟩

/-- C7 counterexample: `getTask` does not fail on a response carrying neither
`result` nor `error`; it returns the absent result unchanged. -/
theorem empty_result_check_location_counterexample :
    getTaskHandle (JsonRpcResponse.mk none none) = Except.ok none :=
  rfl

/-- C8: when the first inference response signals `end_turn` and carries no
tool calls, the loop terminates after exactly one inference call, makes zero
protocol-client calls, and appends exactly one assistant message to the
conversation. -/
theorem end_turn_single_inference (dispatch : Dispatch) (r : InferResponse)
    (rest : List InferResponse) (msgs : List Msg)
    (h : r.stop_reason = "end_turn") (_hnotool : countA2A r.content = 0) :
    runTurn dispatch (r :: rest) msgs =
      some (msgs ++ [Msg.assistant r.content], 1, 0) := by
  rw [runTurn, h]
  simp

/-- C8 witness: a single final-answer response ends the run at once. -/
theorem end_turn_single_inference_witness :
    runTurn failDispatch [InferResponse.mk ("end_turn") [Block.text ("Done")]]
        [Msg.user ("hi")] =
      some ([Msg.user ("hi"), Msg.assistant [Block.text ("Done")]], 1, 0) :=
  end_turn_single_inference failDispatch
    (InferResponse.mk ("end_turn") [Block.text ("Done")]) [] [Msg.user ("hi")]
    rfl rfl

/-- C9: `extractText` yields a string on every task; when the text part
parses to JSON `null`, the property access inside the try block throws, the
catch treats it like a parse failure, and the raw text comes back
verbatim. -/
theorem extractText_null_raw (task : A2ATask) (a : Artifact)
    (arts : List Artifact) (p : ArtifactPart) (h1 : task.artifacts = a :: arts)
    (h2 : findTextPart a.parts = some p) (h3 : ¬ p.text = "")
    (h4 : Json.parse p.text = some Json.null) :
    extractText task = p.text := by
  rw [extractText_parsed task a arts p h1 h2 h3 Json.null h4]
  rfl

/-- C9 witness: the text `null` comes back verbatim. -/
theorem extractText_null_raw_witness :
    extractText (textTask ("null")) = "null" :=
  extractText_null_raw (textTask ("null"))
    (Artifact.mk ("art-1") ("result") [ArtifactPart.mk ("text") ("null")]) []
    (ArtifactPart.mk ("text") ("null")) rfl rfl (by decide) rfl

/-- C10: a text part holding the empty string behaves like a missing text
part at the public interface: `extractData` returns JSON `null` (not the
empty string) and `extractText` returns the fixed no-response sentinel. -/
theorem empty_text_no_response (task : A2ATask) (a : Artifact)
    (arts : List Artifact) (p : ArtifactPart) (h1 : task.artifacts = a :: arts)
    (h2 : findTextPart a.parts = some p) (h3 : p.text = "") :
    extractData task = Json.null ∧
    (extractData task == Json.str ("")) = false ∧
    extractText task = noResponse := by
  have hd : extractData task = Json.null := by
    simp [extractData, h1, h2, h3]
  refine ⟨hd, ?_, ?_⟩
  · rw [hd]
    rfl
  · simp [extractText, h1, h2, h3]

/-- C10 witness: the empty text gives JSON `null` and the sentinel. -/
theorem empty_text_no_response_witness :
    extractData (textTask ("")) = Json.null ∧
    extractText (textTask ("")) = noResponse := by
  have h := empty_text_no_response (textTask (""))
    (Artifact.mk ("art-1") ("result") [ArtifactPart.mk ("text") ("")]) []
    (ArtifactPart.mk ("text") ("")) rfl rfl rfl
  exact ⟨h.1, h.2.2⟩
